import Mathlib

/-!
Shallow embedding of the prime-number-solver repository: the three sieve
engine variants (BasicSieve over a dense flag array, BitSieve over packed
64-bit words, WheelSieve with a 2,3,5 wheel), translated from
src/src/BitSieve.cpp (which also holds BasicSieve.cpp), the WheelSieve
implementation file, and the headers.  The dense flag storage
(std::vector of bool, sized limit+1) is modelled by its contents
function Nat → Bool; every access the program performs lies in
[0, limit], so the model is observationally faithful.  Loops are
translated to folds over the exact list of index values the C++ loop
visits; the two wheel while-loops, whose step is the data-dependent
getNextWheelNumber, are translated with an explicit iteration budget of
limit + 1, which is never exhausted because every iteration increases
the loop variable by at least 2 starting from 7.
-/

/-- Write one cell of a dense flag array: the contents function after
the assignment sieve[i] = b. -/
def setFlag (f : Nat → Bool) (i : Nat) (b : Bool) : Nat → Bool :=
  fun j => if j = i then b else f j

/-- The error signalled by isPrime(num) when num exceeds the limit
(std::invalid_argument with the message Number exceeds sieve limit). -/
inductive SieveErr where
  | outOfRange
deriving DecidableEq

/-- The exact sequence of index values visited by the marking loop
for (i = p*p; i <= limit; i += p). -/
def multIndices (limit p : Nat) : List Nat :=
  (List.range ((limit - p * p) / p + 1)).map (fun k => p * p + k * p)

structure BasicSieve where
  limit : Nat
  sieve : Nat → Bool
  generated : Bool

namespace BasicSieve

/-- BasicSieve::BasicSieve(n): storage resized to limit+1 cells all
true, then 0 and 1 marked non-prime (the write to cell 1 is guarded by
limit >= 1 in the source; cell 1 exists only then). -/
def init (n : Nat) : BasicSieve :=
  let s0 : Nat → Bool := fun _ => true
  let s1 := setFlag s0 0 false
  let s2 := if 1 ≤ n then setFlag s1 1 false else s1
  ⟨n, s2, false⟩

/-- Inner loop of BasicSieve::generate: mark all multiples of p from
p*p to limit as non-prime.  Zero iterations when p*p > limit. -/
def markMultiples (limit p : Nat) (s : Nat → Bool) : Nat → Bool :=
  if p * p ≤ limit then
    (multIndices limit p).foldl (fun f i => setFlag f i false) s
  else s

/-- Outer loop of BasicSieve::generate: for (p = 2; p * p <= limit; ++p),
marking the multiples of every p still flagged prime.  The loop is
translated with an explicit iteration budget (first argument); the
budget limit + 1 is never exhausted, because the loop leaves as soon as
p exceeds Nat.sqrt limit, after at most Nat.sqrt limit - 1 rounds. -/
def generateLoop (limit : Nat) : Nat → Nat → (Nat → Bool) → (Nat → Bool)
  | 0, _, s => s
  | fuel + 1, p, s =>
    if p * p ≤ limit then
      generateLoop limit fuel (p + 1) (if s p then markMultiples limit p s else s)
    else s

/-- BasicSieve::generate(): no-op once generated, otherwise run the
sieve of Eratosthenes and set the generated flag. -/
def generate (e : BasicSieve) : BasicSieve :=
  if e.generated then e
  else { e with sieve := generateLoop e.limit (e.limit + 1) 2 e.sieve, generated := true }

/-- BasicSieve::getPrimes(): trigger generate() if needed, then collect
every i in 2..limit still marked prime, in ascending order.  The pair
returns the collected list together with the engine state after the
call (the method mutates the engine when it triggers generation). -/
def getPrimes (e : BasicSieve) : List Nat × BasicSieve :=
  let e2 := if e.generated then e else e.generate
  ((List.range' 2 (e2.limit - 1)).filter (fun i => e2.sieve i), e2)

/-- BasicSieve::isPrime(num): throws when num > limit, otherwise
triggers generate() if needed and returns the stored flag. -/
def isPrime (e : BasicSieve) (num : Nat) : Except SieveErr (Bool × BasicSieve) :=
  if e.limit < num then Except.error SieveErr.outOfRange
  else
    let e2 := if e.generated then e else e.generate
    Except.ok (e2.sieve num, e2)

/-- BasicSieve::getPrimeCount(): trigger generate() if needed, then
count the cells of 2..limit still marked prime. -/
def getPrimeCount (e : BasicSieve) : Nat × BasicSieve :=
  let e2 := if e.generated then e else e.generate
  (((List.range' 2 (e2.limit - 1)).filter (fun i => e2.sieve i)).length, e2)

end BasicSieve

structure BitSieve where
  limit : Nat
  bitCount : Nat
  bits : List Nat
  generated : Bool

namespace BitSieve

/-- Word-level effect of clearBit: bits[index/64] &= ~(1ULL << (index%64)).
The 64-bit complement of the single-bit mask is 2^64 - 1 - 2^(index%64).
The addressing wordIndex = index / 64, bitOffset = index % 64 is the one
used by ParallelBitSieve::clearBitParallel and stated in the design
document; the inline bodies of BitSieve::getBit/clearBit themselves are
declared in the header but their definitions are not among the provided
sources. -/
def clearBit (e : BitSieve) (index : Nat) : BitSieve :=
  let w := (e.bits.getD (index / 64) 0) &&& (2 ^ 64 - 1 - 2 ^ (index % 64))
  { e with bits := e.bits.set (index / 64) w }

/-- Word-level reading of getBit: bit index%64 of word bits[index/64]. -/
def getBit (e : BitSieve) (index : Nat) : Bool :=
  Nat.testBit (e.bits.getD (index / 64) 0) (index % 64)

/-- BitSieve::BitSieve(n): bitCount = limit+1, array of
(bitCount + 63) / 64 words all ~0ULL, then clearBit(0) and, when
limit >= 1, clearBit(1). -/
def init (n : Nat) : BitSieve :=
  let e0 : BitSieve :=
    ⟨n, n + 1, List.replicate ((n + 1 + 63) / 64) (2 ^ 64 - 1), false⟩
  let e1 := e0.clearBit 0
  if 1 ≤ n then e1.clearBit 1 else e1

/-- Inner loop of BitSieve::generate: clearBit(i) for i = p*p to limit
step p. -/
def markMultiples (limit p : Nat) (e : BitSieve) : BitSieve :=
  if p * p ≤ limit then (multIndices limit p).foldl clearBit e
  else e

/-- Outer loop of BitSieve::generate: for (p = 2; p * p <= limit; ++p),
with the same iteration budget translation as for BasicSieve. -/
def generateLoop (limit : Nat) : Nat → Nat → BitSieve → BitSieve
  | 0, _, e => e
  | fuel + 1, p, e =>
    if p * p ≤ limit then
      generateLoop limit fuel (p + 1) (if e.getBit p then markMultiples limit p e else e)
    else e

/-- BitSieve::generate(): no-op once generated, otherwise sieve and set
the flag. -/
def generate (e : BitSieve) : BitSieve :=
  if e.generated then e
  else { generateLoop e.limit (e.limit + 1) 2 e with generated := true }

/-- BitSieve::getPrimes(): trigger generate() if needed, collect every
i in 2..limit whose bit is still set. -/
def getPrimes (e : BitSieve) : List Nat × BitSieve :=
  let e2 := if e.generated then e else e.generate
  ((List.range' 2 (e2.limit - 1)).filter (fun i => e2.getBit i), e2)

/-- BitSieve::isPrime(num): throws when num > limit, otherwise triggers
generate() if needed and returns the stored bit. -/
def isPrime (e : BitSieve) (num : Nat) : Except SieveErr (Bool × BitSieve) :=
  if e.limit < num then Except.error SieveErr.outOfRange
  else
    let e2 := if e.generated then e else e.generate
    Except.ok (e2.getBit num, e2)

/-- BitSieve::getPrimeCount(): trigger generate() if needed, count the
set bits over 2..limit. -/
def getPrimeCount (e : BitSieve) : Nat × BitSieve :=
  let e2 := if e.generated then e else e.generate
  (((List.range' 2 (e2.limit - 1)).filter (fun i => e2.getBit i)).length, e2)

/-- BitSieve::getMemoryUsage(): bits.size() * sizeof(uint64_t). -/
def getMemoryUsage (e : BitSieve) : Nat :=
  e.bits.length * 8

end BitSieve

structure WheelSieve where
  limit : Nat
  sieve : Nat → Bool
  generated : Bool

namespace WheelSieve

/-- WHEEL_SIZE = 2*3*5. -/
def WHEEL_SIZE : Nat := 30

/-- WHEEL_PRIMES_COUNT: number of residues coprime to 30. -/
def WHEEL_PRIMES_COUNT : Nat := 8

/-- The static WHEEL_SKIP table, verbatim from WheelSieve.hpp. -/
def WHEEL_SKIP : List Nat :=
  [4, 2, 4, 2, 4, 6, 2, 6, 4, 2, 4, 2, 4, 6, 2, 6, 4, 2, 4, 2, 4, 6, 2, 6, 4, 2, 4, 2, 4, 6]

/-- The static WHEEL_PRIMES table, verbatim from WheelSieve.hpp. -/
def WHEEL_PRIMES : List Nat := [7, 11, 13, 17, 19, 23, 29, 31]

/-- The exact index sequence of a constructor marking loop
for (i = p; i <= limit; i += p), clearing each visited cell. -/
def clearStride (limit p : Nat) (s : Nat → Bool) : Nat → Bool :=
  if p ≤ limit then
    ((List.range ((limit - p) / p + 1)).map (fun k => p + k * p)).foldl
      (fun f i => setFlag f i false) s
  else s

/-- WheelSieve::WheelSieve(n): all cells true, cells 0 and 1 cleared,
all multiples of 2, 3 and 5 cleared, then cells 2, 3, 5 restored to
true (each write guarded by the corresponding limit test as in the
source). -/
def init (n : Nat) : WheelSieve :=
  let s0 : Nat → Bool := fun _ => true
  let s1 := setFlag s0 0 false
  let s2 := if 1 ≤ n then setFlag s1 1 false else s1
  let s3 := clearStride n 2 s2
  let s4 := clearStride n 3 s3
  let s5 := clearStride n 5 s4
  let s6 := if 2 ≤ n then setFlag s5 2 true else s5
  let s7 := if 3 ≤ n then setFlag s6 3 true else s6
  let s8 := if 5 ≤ n then setFlag s7 5 true else s7
  ⟨n, s8, false⟩

/-- WheelSieve::numToWheelIndex(num), translated verbatim: the returned
value is quotient * WHEEL_PRIMES_COUNT + remainder where remainder is
the raw value (num - 7) % WHEEL_SIZE. -/
def numToWheelIndex (num : Nat) : Nat :=
  if num < 7 then 0
  else
    let remainder := (num - 7) % WHEEL_SIZE
    let quotient := (num - 7) / WHEEL_SIZE
    quotient * WHEEL_PRIMES_COUNT + remainder

/-- WheelSieve::wheelIndexToNum(index), translated verbatim. -/
def wheelIndexToNum (index : Nat) : Nat :=
  if index < WHEEL_PRIMES_COUNT then WHEEL_PRIMES.getD index 0
  else
    let quotient := index / WHEEL_PRIMES_COUNT
    let remainder := index % WHEEL_PRIMES_COUNT
    7 + quotient * WHEEL_SIZE + (WHEEL_PRIMES.getD remainder 0 - 7)

/-- WheelSieve::getNextWheelNumber(current).  For current in {4, 6} the
C++ falls through the small-number cases and computes current - 7 on
the unsigned std::size_t type, which wraps modulo 2^64; the wrap is
modelled exactly for every current below 2^64. -/
def getNextWheelNumber (current : Nat) : Nat :=
  if current < 2 then 2
  else if current = 2 then 3
  else if current = 3 then 5
  else if current = 5 then 7
  else
    let remainder := ((current + (2 ^ 64 - 7)) % 2 ^ 64) % WHEEL_SIZE
    current + WHEEL_SKIP.getD remainder 0

/-- Inner loop of WheelSieve::generate: starting at multiple = p*p,
clear the cell, advance via getNextWheelNumber and add p when the
advanced value is not a multiple of p, while multiple <= limit.  The
iteration budget limit + 1 is never exhausted: every round advances
multiple by at least 2 (every WHEEL_SKIP entry is positive). -/
def markLoop (limit p : Nat) : Nat → Nat → (Nat → Bool) → (Nat → Bool)
  | 0, _, s => s
  | fuel + 1, multiple, s =>
    if multiple ≤ limit then
      let s2 := setFlag s multiple false
      let m2 := getNextWheelNumber multiple
      let m3 := if m2 % p ≠ 0 then m2 + p else m2
      markLoop limit p fuel m3 s2
    else s

/-- Outer loop of WheelSieve::generate: p starts at 7 and advances via
getNextWheelNumber while p * p <= limit; same iteration-budget
translation as markLoop. -/
def genLoop (limit : Nat) : Nat → Nat → (Nat → Bool) → (Nat → Bool)
  | 0, _, s => s
  | fuel + 1, p, s =>
    if p * p ≤ limit then
      let s2 := if s p then markLoop limit p (limit + 1) (p * p) s else s
      genLoop limit fuel (getNextWheelNumber p) s2
    else s

/-- WheelSieve::generate(): no-op once generated, otherwise run the
wheel sieve from p = 7 and set the flag. -/
def generate (e : WheelSieve) : WheelSieve :=
  if e.generated then e
  else { e with sieve := genLoop e.limit (e.limit + 1) 7 e.sieve, generated := true }

/-- The enumeration loop shared by getPrimes, getPrimeCount,
printPrimes and savePrimesToFile:
for (i = 7; i <= limit; i = getNextWheelNumber(i)) collect i when
sieve[i] is still true. -/
def wheelWalk (limit : Nat) (s : Nat → Bool) : Nat → Nat → List Nat
  | 0, _ => []
  | fuel + 1, i =>
    if i ≤ limit then
      (if s i then [i] else []) ++ wheelWalk limit s fuel (getNextWheelNumber i)
    else []

/-- WheelSieve::getPrimes(): trigger generate() if needed, push 2, 3, 5
when within limit, then append the wheel enumeration from 7. -/
def getPrimes (e : WheelSieve) : List Nat × WheelSieve :=
  let e2 := if e.generated then e else e.generate
  let base := (if 2 ≤ e2.limit then [2] else []) ++ (if 3 ≤ e2.limit then [3] else [])
      ++ (if 5 ≤ e2.limit then [5] else [])
  (base ++ wheelWalk e2.limit e2.sieve (e2.limit + 1) 7, e2)

/-- WheelSieve::isPrime(num): throws when num > limit, otherwise
triggers generate() if needed and returns the stored flag. -/
def isPrime (e : WheelSieve) (num : Nat) : Except SieveErr (Bool × WheelSieve) :=
  if e.limit < num then Except.error SieveErr.outOfRange
  else
    let e2 := if e.generated then e else e.generate
    Except.ok (e2.sieve num, e2)

/-- WheelSieve::getPrimeCount(): trigger generate() if needed, count
2, 3, 5 when within limit plus the wheel enumeration hits. -/
def getPrimeCount (e : WheelSieve) : Nat × WheelSieve :=
  let e2 := if e.generated then e else e.generate
  let base := (if 2 ≤ e2.limit then 1 else 0) + (if 3 ≤ e2.limit then 1 else 0)
      + (if 5 ≤ e2.limit then 1 else 0)
  (base + (wheelWalk e2.limit e2.sieve (e2.limit + 1) 7).length, e2)

/-- WheelSieve::getMemoryUsage(): sieve.size() * sizeof(bool), i.e.
(limit + 1) cells at one byte each. -/
def getMemoryUsage (e : WheelSieve) : Nat :=
  (e.limit + 1) * 1

end WheelSieve

/-- No proper divisor between 2 and q: every divisor d of i with
2 <= d <= q is i itself. -/
def noDiv (q i : Nat) : Prop := ∀ d, 2 ≤ d → d ≤ q → d ∣ i → d = i

/-- The exact content of the dense sieve after the outer loop has
processed every candidate p <= q: a cell i <= limit is still true iff
i >= 2 and i has no proper divisor in [2, q]. -/
def sieveInv (limit q : Nat) (f : Nat → Bool) : Prop :=
  ∀ i, i ≤ limit → (f i = true ↔ 2 ≤ i ∧ noDiv q i)

/-!
Lemma layer.  First the pointwise effect of the dense-array loops, then
the exact invariant of the sieve of Eratosthenes, then the word-level
correspondence between the packed BitSieve storage and the dense
storage.
-/

theorem setFlag_eval (f : Nat → Bool) (i : Nat) (b : Bool) (j : Nat) :
    setFlag f i b j = if j = i then b else f j := rfl

theorem foldl_setFlag_eval (L : List Nat) (f : Nat → Bool) (j : Nat) :
    (L.foldl (fun g i => setFlag g i false) f) j = if j ∈ L then false else f j := by
  induction L generalizing f with
  | nil => simp
  | cons a t ih =>
    simp only [List.foldl_cons, ih, List.mem_cons]
    by_cases hj : j ∈ t
    · simp [hj]
    · by_cases ha : j = a <;> simp [hj, ha, setFlag]

theorem mem_multIndices {limit p : Nat} (hp : 0 < p) (hpl : p * p ≤ limit) (i : Nat) :
    i ∈ multIndices limit p ↔ p ∣ i ∧ p * p ≤ i ∧ i ≤ limit := by
  unfold multIndices
  simp only [List.mem_map, List.mem_range, Nat.lt_succ_iff]
  constructor
  · rintro ⟨k, hk, rfl⟩
    refine ⟨⟨p + k, by ring⟩, Nat.le_add_right _ _, ?_⟩
    have hkp : k * p ≤ limit - p * p := (Nat.le_div_iff_mul_le hp).mp hk
    omega
  · rintro ⟨⟨m, rfl⟩, hsq, hle⟩
    have hm : p ≤ m := Nat.le_of_mul_le_mul_left hsq hp
    refine ⟨m - p, ?_, ?_⟩
    · rw [Nat.le_div_iff_mul_le hp, Nat.sub_mul]
      have h1 : p * p ≤ m * p := by
        exact Nat.mul_le_mul_right p hm
      have h2 : m * p ≤ limit := by rw [Nat.mul_comm]; exact hle
      omega
    · rw [Nat.sub_mul]
      have h1 : p * p ≤ m * p := Nat.mul_le_mul_right p hm
      have h2 : p * m = m * p := Nat.mul_comm p m
      omega

theorem markMultiples_eval (limit p : Nat) (hp : 0 < p) (s : Nat → Bool) (j : Nat) :
    BasicSieve.markMultiples limit p s j =
      if p ∣ j ∧ p * p ≤ j ∧ j ≤ limit then false else s j := by
  unfold BasicSieve.markMultiples
  by_cases h : p * p ≤ limit
  · rw [if_pos h, foldl_setFlag_eval]
    by_cases hj : p ∣ j ∧ p * p ≤ j ∧ j ≤ limit
    · rw [if_pos ((mem_multIndices hp h j).mpr hj), if_pos hj]
    · rw [if_neg (fun hmem => hj ((mem_multIndices hp h j).mp hmem)), if_neg hj]
  · rw [if_neg h, if_neg]
    rintro ⟨-, hsq, hle⟩
    exact h (le_trans hsq hle)

theorem step_inv {limit p : Nat} {f : Nat → Bool}
    (h2 : 2 ≤ p) (hpl : p ≤ limit) (hf : sieveInv limit (p - 1) f) :
    sieveInv limit p (if f p then BasicSieve.markMultiples limit p f else f) := by
  by_cases hfp : f p = true
  · rw [if_pos hfp]
    intro i hi
    rw [markMultiples_eval limit p (by omega) f i]
    by_cases hcond : p ∣ i ∧ p * p ≤ i ∧ i ≤ limit
    · rw [if_pos hcond]
      obtain ⟨hdvd, hsq, -⟩ := hcond
      simp only [Bool.false_eq_true, false_iff]
      rintro ⟨hi2, hnd⟩
      have hplt : p < i := lt_of_lt_of_le (by nlinarith) hsq
      exact absurd (hnd p h2 (le_refl p) hdvd) (by omega)
    · rw [if_neg hcond, hf i hi]
      constructor
      · rintro ⟨hi2, hnd⟩
        refine ⟨hi2, fun d hd2 hdp hdvd => ?_⟩
        rcases Nat.lt_or_ge d p with hdlt | hdge
        · exact hnd d hd2 (by omega) hdvd
        · have hdp2 : d = p := by omega
          subst hdp2
          by_cases hdi : d = i
          · exact hdi
          · obtain ⟨m, hm⟩ := hdvd
            have hilt : i < d * d := by
              rcases Nat.lt_or_ge i (d * d) with h | h
              · exact h
              · exact absurd ⟨⟨m, hm⟩, h, hi⟩ hcond
            have hm2 : 2 ≤ m := by
              rcases m with - | - | m
              · omega
              · omega
              · omega
            have hmlt : m < d := by
              by_contra hc
              push_neg at hc
              have : d * d ≤ d * m := Nat.mul_le_mul_left d hc
              omega
            have hmdvd : m ∣ i := ⟨d, by rw [hm]; ring⟩
            have := hnd m hm2 (by omega) hmdvd
            subst this
            nlinarith
      · rintro ⟨hi2, hnd⟩
        exact ⟨hi2, fun d hd2 hdp hdvd => hnd d hd2 (by omega) hdvd⟩
  · rw [if_neg hfp]
    intro i hi
    rw [hf i hi]
    have hnp : ¬ (2 ≤ p ∧ noDiv (p - 1) p) := by
      intro hc
      rw [← hf p hpl] at hc
      exact hfp hc
    have hexd : ∃ d, 2 ≤ d ∧ d ≤ p - 1 ∧ d ∣ p ∧ d ≠ p := by
      by_contra hc
      push_neg at hc
      exact hnp ⟨h2, fun d hd2 hdp hdvd => by
        by_contra hne
        exact absurd hdvd (fun hdd => hne (by
          have := hc d hd2 hdp
          exact absurd hdd (fun h => hne (this h))))⟩
    obtain ⟨d, hd2, hdp1, hddvd, hdne⟩ := hexd
    constructor
    · rintro ⟨hi2, hnd⟩
      refine ⟨hi2, fun e he2 hep hedvd => ?_⟩
      rcases Nat.lt_or_ge e p with helt | hege
      · exact hnd e he2 (by omega) hedvd
      · have hep2 : e = p := by omega
        subst hep2
        have hdi : d ∣ i := dvd_trans hddvd hedvd
        have hei : e ≤ i := Nat.le_of_dvd (by omega) hedvd
        have := hnd d hd2 (by omega) hdi
        omega
    · rintro ⟨hi2, hnd⟩
      exact ⟨hi2, fun e he2 hep hedvd => hnd e he2 (by omega) hedvd⟩

theorem generateLoop_inv {limit : Nat} (fuel : Nat) :
    ∀ (p : Nat) (f : Nat → Bool), 2 ≤ p → Nat.sqrt limit < p + fuel →
      sieveInv limit (p - 1) f →
      sieveInv limit (max (p - 1) (Nat.sqrt limit))
        (BasicSieve.generateLoop limit fuel p f) := by
  induction fuel with
  | zero =>
    intro p f h2 hfuel hf
    rw [BasicSieve.generateLoop]
    rwa [Nat.max_eq_left (by omega)]
  | succ fuel ih =>
    intro p f h2 hfuel hf
    rw [BasicSieve.generateLoop]
    by_cases h : p * p ≤ limit
    · rw [if_pos h]
      have hps : p ≤ Nat.sqrt limit := Nat.le_sqrt.mpr h
      have hpl : p ≤ limit := le_trans hps (Nat.sqrt_le_self _)
      have hstep := step_inv h2 hpl hf
      have hrec := ih (p + 1) _ (by omega) (by omega) (by simpa using hstep)
      rw [Nat.add_sub_cancel, Nat.max_eq_right hps] at hrec
      rw [Nat.max_eq_right (by omega : p - 1 ≤ Nat.sqrt limit)]
      exact hrec
    · rw [if_neg h]
      have hgt : Nat.sqrt limit < p := by
        by_contra hc
        push_neg at hc
        exact h (Nat.le_sqrt.mp hc)
      rwa [Nat.max_eq_left (by omega)]

theorem init_inv (B : Nat) : sieveInv B 1 ((BasicSieve.init B).sieve) := by
  intro i hi
  have hnd : noDiv 1 i := fun d hd2 hd1 _ => by omega
  show (if 1 ≤ B then setFlag (setFlag (fun _ => true) 0 false) 1 false
      else setFlag (fun _ => true) 0 false) i = true ↔ 2 ≤ i ∧ noDiv 1 i
  by_cases hB : 1 ≤ B
  · rw [if_pos hB]
    simp only [setFlag]
    rcases Nat.lt_or_ge i 2 with h | h
    · interval_cases i <;> simp [hnd]
    · have h0 : i ≠ 0 := by omega
      have h1 : i ≠ 1 := by omega
      simp [h0, h1, h, hnd]
  · rw [if_neg hB]
    have hi0 : i = 0 := by omega
    subst hi0
    simp [setFlag]

theorem noDiv_prime {limit q i : Nat} (hq : Nat.sqrt limit ≤ q) (hi : i ≤ limit) :
    (2 ≤ i ∧ noDiv q i) ↔ Nat.Prime i := by
  constructor
  · rintro ⟨h2, hnd⟩
    by_contra hnp
    have hmp := Nat.minFac_prime (by omega : i ≠ 1)
    have hdvd := Nat.minFac_dvd i
    have hsq := Nat.minFac_sq_le_self (by omega : 0 < i) hnp
    have h2m : 2 ≤ i.minFac := hmp.two_le
    have hsqrt : i.minFac ≤ Nat.sqrt limit := by
      rw [Nat.le_sqrt]
      calc i.minFac * i.minFac = i.minFac ^ 2 := by ring
        _ ≤ i := hsq
        _ ≤ limit := hi
    have heq := hnd i.minFac h2m (le_trans hsqrt hq) hdvd
    exact hnp (Nat.prime_def_minFac.mpr ⟨h2, heq⟩)
  · intro hp
    refine ⟨hp.two_le, fun d hd2 hdq hdvd => ?_⟩
    rcases hp.eq_one_or_self_of_dvd d hdvd with h1 | h
    · omega
    · exact h

theorem basic_generate_sieve_eval {B i : Nat} (hi : i ≤ B) :
    ((BasicSieve.init B).generate).sieve i = true ↔ Nat.Prime i := by
  have hinv := @generateLoop_inv B (B + 1) 2 ((BasicSieve.init B).sieve)
    (le_refl 2) (by have := Nat.sqrt_le_self B; omega) (by simpa using init_inv B)
  have hgen : ((BasicSieve.init B).generate).sieve
      = BasicSieve.generateLoop B (B + 1) 2 ((BasicSieve.init B).sieve) := rfl
  rw [hgen, hinv i hi, noDiv_prime (le_max_right _ _) hi]

theorem bool_eq_decide {b : Bool} {P : Prop} [Decidable P] (h : b = true ↔ P) :
    b = decide P := by
  by_cases hp : P
  · rw [h.mpr hp, decide_eq_true hp]
  · have hb : b = false := by
      cases b
      · rfl
      · exact absurd (h.mp rfl) hp
    rw [hb, decide_eq_false hp]

theorem basic_getPrimes_eq (B : Nat) :
    ((BasicSieve.init B).generate.getPrimes).1 =
      (List.range' 2 (B - 1)).filter (fun i => decide (Nat.Prime i)) := by
  have h1 : ((BasicSieve.init B).generate.getPrimes).1
      = (List.range' 2 (B - 1)).filter (fun i => ((BasicSieve.init B).generate).sieve i) := rfl
  rw [h1]
  apply List.filter_congr
  intro x hx
  rw [List.mem_range'_1] at hx
  exact bool_eq_decide (basic_generate_sieve_eval (by omega))

theorem mem_basic_getPrimes {B n : Nat} :
    n ∈ ((BasicSieve.init B).generate.getPrimes).1 ↔ Nat.Prime n ∧ n ≤ B := by
  rw [basic_getPrimes_eq, List.mem_filter, List.mem_range'_1]
  simp only [decide_eq_true_eq]
  constructor
  · rintro ⟨⟨h2, hlt⟩, hp⟩
    exact ⟨hp, by omega⟩
  · rintro ⟨hp, hle⟩
    have h2 := hp.two_le
    exact ⟨⟨h2, by omega⟩, hp⟩

theorem pairwise_lt_range'_aux : ∀ (n s : Nat), List.Pairwise (· < ·) (List.range' s n)
  | 0, _ => List.Pairwise.nil
  | n + 1, s => by
    rw [List.range'_succ]
    refine List.Pairwise.cons (fun m hm => ?_) (pairwise_lt_range'_aux n (s + 1))
    rw [List.mem_range'_1] at hm
    omega

theorem basic_getPrimes_sorted (B : Nat) :
    List.Pairwise (· < ·) ((BasicSieve.init B).generate.getPrimes).1 := by
  rw [basic_getPrimes_eq]
  exact List.Pairwise.sublist (List.filter_sublist _) (pairwise_lt_range'_aux _ _)

theorem getD_set_self (l : List Nat) (k w : Nat) (h : k < l.length) :
    (l.set k w).getD k 0 = w := by
  induction l generalizing k with
  | nil => simp at h
  | cons a t ih =>
    cases k with
    | zero => simp
    | succ k => simpa using ih k (by simpa using h)

theorem getD_set_ne (l : List Nat) (k j w : Nat) (h : k ≠ j) :
    (l.set k w).getD j 0 = l.getD j 0 := by
  induction l generalizing k j with
  | nil => simp
  | cons a t ih =>
    cases k with
    | zero =>
      cases j with
      | zero => omega
      | succ j => simp
    | succ k =>
      cases j with
      | zero => simp
      | succ j => simpa using ih k j (by omega)

theorem testBit_mask64 : ∀ a < 64, ∀ b < 64,
    Nat.testBit (2 ^ 64 - 1 - 2 ^ b) a = !decide (a = b) := by decide

theorem wordIndex_lt {limit j : Nat} (hj : j ≤ limit) :
    j / 64 < (limit + 1 + 63) / 64 := by
  have h1 : j / 64 ≤ limit / 64 := Nat.div_le_div_right hj
  omega

theorem getBit_clearBit {e : BitSieve} {j : Nat}
    (hlen : e.bits.length = (e.limit + 1 + 63) / 64) (hj : j ≤ e.limit) (i : Nat) :
    (e.clearBit j).getBit i = if i = j then false else e.getBit i := by
  unfold BitSieve.clearBit BitSieve.getBit
  by_cases hw : i / 64 = j / 64
  · have hwlt : j / 64 < e.bits.length := by rw [hlen]; exact wordIndex_lt hj
    rw [hw, getD_set_self _ _ _ hwlt, Nat.testBit_land,
      testBit_mask64 _ (Nat.mod_lt _ (by norm_num)) _ (Nat.mod_lt _ (by norm_num))]
    by_cases him : i % 64 = j % 64
    · have hij : i = j := by omega
      simp [hij, him]
    · have hij : i ≠ j := by omega
      rw [if_neg hij]
      simp [him]
  · rw [getD_set_ne _ _ _ _ (fun h => hw h.symm)]
    have hij : i ≠ j := fun h => hw (by rw [h])
    rw [if_neg hij]

theorem foldl_clearBit_rel (L : List Nat) :
    ∀ (s : Nat → Bool) (b : BitSieve),
      b.bits.length = (b.limit + 1 + 63) / 64 →
      (∀ j ∈ L, j ≤ b.limit) →
      (∀ i, i ≤ b.limit → b.getBit i = s i) →
      (L.foldl BitSieve.clearBit b).limit = b.limit
        ∧ (L.foldl BitSieve.clearBit b).bits.length = b.bits.length
        ∧ ∀ i, i ≤ b.limit →
            (L.foldl BitSieve.clearBit b).getBit i
              = (L.foldl (fun f j => setFlag f j false) s) i := by
  induction L with
  | nil =>
    intro s b hlen hL hrel
    exact ⟨rfl, rfl, fun i hi => hrel i hi⟩
  | cons a t ih =>
    intro s b hlen hL hrel
    simp only [List.foldl_cons]
    have ha : a ≤ b.limit := hL a (List.mem_cons_self a t)
    have hlimeq : (b.clearBit a).limit = b.limit := rfl
    have hlenset : (b.clearBit a).bits.length = b.bits.length := by
      show (b.bits.set _ _).length = b.bits.length
      exact List.length_set b.bits _ _
    have hlen2 : (b.clearBit a).bits.length = ((b.clearBit a).limit + 1 + 63) / 64 := by
      rw [hlenset, hlimeq, hlen]
    have hrel2 : ∀ i, i ≤ (b.clearBit a).limit →
        (b.clearBit a).getBit i = setFlag s a false i := by
      intro i hi
      rw [getBit_clearBit hlen ha i, setFlag_eval]
      by_cases h : i = a
      · simp [h]
      · simp [h, hrel i hi]
    obtain ⟨l1, l2, l3⟩ := ih (setFlag s a false) (b.clearBit a) hlen2
      (fun j hj => hL j (List.mem_cons_of_mem _ hj)) hrel2
    exact ⟨by rw [l1, hlimeq], by rw [l2, hlenset], fun i hi => l3 i hi⟩

theorem multIndices_le {limit p : Nat} (h : p * p ≤ limit) :
    ∀ j ∈ multIndices limit p, j ≤ limit := by
  intro j hj
  unfold multIndices at hj
  simp only [List.mem_map, List.mem_range, Nat.lt_succ_iff] at hj
  obtain ⟨k, hk, rfl⟩ := hj
  rcases Nat.eq_zero_or_pos p with h0 | h1
  · subst h0
    simp
  · have := (Nat.le_div_iff_mul_le h1).mp hk
    omega

theorem markMultiples_rel {limit p : Nat} {s : Nat → Bool} {b : BitSieve}
    (hblimit : b.limit = limit)
    (hlen : b.bits.length = (limit + 1 + 63) / 64)
    (hrel : ∀ i, i ≤ limit → b.getBit i = s i) :
    (BitSieve.markMultiples limit p b).limit = limit
    ∧ (BitSieve.markMultiples limit p b).bits.length = (limit + 1 + 63) / 64
    ∧ ∀ i, i ≤ limit →
        (BitSieve.markMultiples limit p b).getBit i = BasicSieve.markMultiples limit p s i := by
  unfold BitSieve.markMultiples BasicSieve.markMultiples
  by_cases h : p * p ≤ limit
  · rw [if_pos h, if_pos h]
    have hL : ∀ j ∈ multIndices limit p, j ≤ b.limit := by
      intro j hj
      rw [hblimit]
      exact multIndices_le h j hj
    obtain ⟨l1, l2, l3⟩ := foldl_clearBit_rel (multIndices limit p) s b
      (by rw [hlen, hblimit]) hL (fun i hi => hrel i (by omega))
    refine ⟨by rw [l1, hblimit], by rw [l2, hlen], fun i hi => l3 i (by omega)⟩
  · rw [if_neg h, if_neg h]
    exact ⟨hblimit, hlen, fun i hi => hrel i hi⟩

theorem generateLoop_rel {limit : Nat} (fuel : Nat) :
    ∀ (p : Nat) (s : Nat → Bool) (b : BitSieve),
      b.limit = limit →
      b.bits.length = (limit + 1 + 63) / 64 →
      (∀ i, i ≤ limit → b.getBit i = s i) →
      (BitSieve.generateLoop limit fuel p b).limit = limit
      ∧ (BitSieve.generateLoop limit fuel p b).bits.length = (limit + 1 + 63) / 64
      ∧ ∀ i, i ≤ limit →
          (BitSieve.generateLoop limit fuel p b).getBit i
            = BasicSieve.generateLoop limit fuel p s i := by
  induction fuel with
  | zero =>
    intro p s b hblimit hlen hrel
    rw [BitSieve.generateLoop]
    rw [show BasicSieve.generateLoop limit 0 p s = s from rfl]
    exact ⟨hblimit, hlen, hrel⟩
  | succ fuel ih =>
    intro p s b hblimit hlen hrel
    rw [BitSieve.generateLoop, BasicSieve.generateLoop]
    by_cases h : p * p ≤ limit
    · rw [if_pos h, if_pos h]
      have hpl : p ≤ limit := by
        rcases Nat.eq_zero_or_pos p with h0 | h1
        · omega
        · have h2 : p * 1 ≤ p * p := Nat.mul_le_mul_left p h1
          omega
      have hguard : b.getBit p = s p := hrel p hpl
      rw [hguard]
      by_cases hsp : s p = true
      · rw [if_pos hsp, if_pos hsp]
        obtain ⟨m1, m2, m3⟩ := @markMultiples_rel limit p _ _ hblimit hlen hrel
        exact ih (p + 1) _ _ m1 m2 m3
      · rw [if_neg hsp, if_neg hsp]
        exact ih (p + 1) s b hblimit hlen hrel
    · rw [if_neg h, if_neg h]
      exact ⟨hblimit, hlen, hrel⟩

theorem getD_replicate (n k a : Nat) (h : k < n) :
    (List.replicate n a).getD k 0 = a := by
  induction n generalizing k with
  | zero => omega
  | succ n ih =>
    rw [List.replicate_succ]
    cases k with
    | zero => rfl
    | succ k => simpa using ih k (by omega)

theorem bitInit_generated (B : Nat) : (BitSieve.init B).generated = false := by
  unfold BitSieve.init
  by_cases h : 1 ≤ B
  · rw [if_pos h]
    rfl
  · rw [if_neg h]
    rfl

theorem bitInit_limit (B : Nat) : (BitSieve.init B).limit = B := by
  unfold BitSieve.init
  by_cases h : 1 ≤ B
  · rw [if_pos h]
    rfl
  · rw [if_neg h]
    rfl

theorem bitInit_rel (B : Nat) :
    (BitSieve.init B).bits.length = (B + 1 + 63) / 64
    ∧ ∀ i, i ≤ B → (BitSieve.init B).getBit i = (BasicSieve.init B).sieve i := by
  have hrep : (List.replicate ((B + 1 + 63) / 64) (2 ^ 64 - 1)).length = (B + 1 + 63) / 64 :=
    List.length_replicate _ _
  have e0len : (⟨B, B + 1, List.replicate ((B + 1 + 63) / 64) (2 ^ 64 - 1), false⟩ :
      BitSieve).bits.length = (B + 1 + 63) / 64 := hrep
  have e0get : ∀ i, i ≤ B → (⟨B, B + 1, List.replicate ((B + 1 + 63) / 64) (2 ^ 64 - 1), false⟩ :
      BitSieve).getBit i = true := by
    intro i hi
    show Nat.testBit ((List.replicate ((B + 1 + 63) / 64) (2 ^ 64 - 1)).getD (i / 64) 0)
      (i % 64) = true
    rw [getD_replicate _ _ _ (wordIndex_lt hi), Nat.testBit_two_pow_sub_one]
    simp [Nat.mod_lt i (show 0 < 64 by norm_num)]
  unfold BitSieve.init
  by_cases hB : 1 ≤ B
  · rw [if_pos hB]
    set e0 : BitSieve := ⟨B, B + 1, List.replicate ((B + 1 + 63) / 64) (2 ^ 64 - 1), false⟩ with he0
    have h0len : (e0.clearBit 0).bits.length = (B + 1 + 63) / 64 := by
      show (e0.bits.set _ _).length = _
      rw [List.length_set]
      exact e0len
    constructor
    · show ((e0.clearBit 0).bits.set _ _).length = _
      rw [List.length_set]
      exact h0len
    · intro i hi
      rw [@getBit_clearBit (e0.clearBit 0) 1 h0len (show 1 ≤ (e0.clearBit 0).limit from hB) i]
      rw [@getBit_clearBit e0 0 e0len (show 0 ≤ e0.limit from Nat.zero_le _) i]
      show _ = (if 1 ≤ B then setFlag (setFlag (fun _ => true) 0 false) 1 false
        else setFlag (fun _ => true) 0 false) i
      rw [if_pos hB]
      simp only [setFlag]
      by_cases h1 : i = 1
      · simp [h1]
      · by_cases h0 : i = 0
        · simp [h0, h1]
        · simp [h0, h1, e0get i hi]
  · rw [if_neg hB]
    set e0 : BitSieve := ⟨B, B + 1, List.replicate ((B + 1 + 63) / 64) (2 ^ 64 - 1), false⟩ with he0
    constructor
    · show (e0.bits.set _ _).length = _
      rw [List.length_set]
      exact e0len
    · intro i hi
      rw [@getBit_clearBit e0 0 e0len (Nat.zero_le _) i]
      show _ = (if 1 ≤ B then setFlag (setFlag (fun _ => true) 0 false) 1 false
        else setFlag (fun _ => true) 0 false) i
      rw [if_neg hB]
      simp only [setFlag]
      have hi0 : i = 0 := by omega
      simp [hi0]

theorem bit_generate_init (B : Nat) :
    (BitSieve.init B).generate
      = { BitSieve.generateLoop B (B + 1) 2 (BitSieve.init B) with generated := true } := by
  unfold BitSieve.generate
  rw [bitInit_generated, bitInit_limit]
  rfl

theorem bit_generate_rel (B : Nat) :
    ((BitSieve.init B).generate).limit = B
    ∧ ((BitSieve.init B).generate).generated = true
    ∧ ∀ i, i ≤ B → ((BitSieve.init B).generate).getBit i
        = ((BasicSieve.init B).generate).sieve i := by
  obtain ⟨hlen, hrel⟩ := bitInit_rel B
  obtain ⟨g1, g2, g3⟩ := @generateLoop_rel B (B + 1) 2 ((BasicSieve.init B).sieve)
    (BitSieve.init B) (bitInit_limit B) (by rw [hlen]) hrel
  rw [bit_generate_init B]
  refine ⟨g1, rfl, fun i hi => ?_⟩
  show (BitSieve.generateLoop B (B + 1) 2 (BitSieve.init B)).getBit i = _
  rw [g3 i hi]
  rfl

theorem BitSieve.getPrimes_of_generated {e : BitSieve} (h : e.generated = true) :
    e.getPrimes = ((List.range' 2 (e.limit - 1)).filter (fun i => e.getBit i), e) := by
  unfold BitSieve.getPrimes
  rw [h]
  exact rfl

theorem bit_getPrimes_eq (B : Nat) :
    ((BitSieve.init B).generate.getPrimes).1 = ((BasicSieve.init B).generate.getPrimes).1 := by
  obtain ⟨hlim, hgen, hrel⟩ := bit_generate_rel B
  rw [BitSieve.getPrimes_of_generated hgen, hlim]
  have hbas : ((BasicSieve.init B).generate.getPrimes).1
      = (List.range' 2 (B - 1)).filter (fun i => ((BasicSieve.init B).generate).sieve i) := rfl
  rw [hbas]
  apply List.filter_congr
  intro x hx
  rw [List.mem_range'_1] at hx
  exact hrel x (by omega)

/-!
Lifecycle lemmas shared by the claims about generate, the query
operations and the read-only accessors, for each of the three variants.
-/

theorem basic_generate_generated (e : BasicSieve) : (e.generate).generated = true := by
  unfold BasicSieve.generate
  by_cases h : e.generated = true
  · rw [if_pos h]
    exact h
  · rw [if_neg h]

theorem basic_generate_of_generated {e : BasicSieve} (h : e.generated = true) :
    e.generate = e := by
  unfold BasicSieve.generate
  rw [h]
  exact rfl

theorem basic_generate_generate (e : BasicSieve) : e.generate.generate = e.generate :=
  basic_generate_of_generated (basic_generate_generated e)

theorem basic_ifGen_eq_generate (e : BasicSieve) :
    (if e.generated then e else e.generate) = e.generate := by
  by_cases h : e.generated = true
  · rw [if_pos h, basic_generate_of_generated h]
  · rw [if_neg h]

theorem basic_generate_limit (e : BasicSieve) : (e.generate).limit = e.limit := by
  unfold BasicSieve.generate
  by_cases h : e.generated = true
  · rw [if_pos h]
  · rw [if_neg h]

theorem basic_getPrimes_eq_generate (e : BasicSieve) :
    e.getPrimes = (((List.range' 2 ((e.generate).limit - 1)).filter
      (fun i => (e.generate).sieve i)), e.generate) := by
  unfold BasicSieve.getPrimes
  rw [basic_ifGen_eq_generate]

theorem basic_getPrimeCount_eq_generate (e : BasicSieve) :
    e.getPrimeCount = (((List.range' 2 ((e.generate).limit - 1)).filter
      (fun i => (e.generate).sieve i)).length, e.generate) := by
  unfold BasicSieve.getPrimeCount
  rw [basic_ifGen_eq_generate]

theorem basic_isPrime_out {e : BasicSieve} {n : Nat} (h : e.limit < n) :
    e.isPrime n = Except.error SieveErr.outOfRange := by
  unfold BasicSieve.isPrime
  rw [if_pos h]

theorem basic_isPrime_in {e : BasicSieve} {n : Nat} (h : n ≤ e.limit) :
    e.isPrime n = Except.ok ((e.generate).sieve n, e.generate) := by
  unfold BasicSieve.isPrime
  rw [if_neg (Nat.not_lt.mpr h), basic_ifGen_eq_generate]

theorem bit_generate_generated (e : BitSieve) : (e.generate).generated = true := by
  unfold BitSieve.generate
  by_cases h : e.generated = true
  · rw [if_pos h]
    exact h
  · rw [if_neg h]

theorem bit_generate_of_generated {e : BitSieve} (h : e.generated = true) :
    e.generate = e := by
  unfold BitSieve.generate
  rw [h]
  exact rfl

theorem bit_generate_generate (e : BitSieve) : e.generate.generate = e.generate :=
  bit_generate_of_generated (bit_generate_generated e)

theorem bit_ifGen_eq_generate (e : BitSieve) :
    (if e.generated then e else e.generate) = e.generate := by
  by_cases h : e.generated = true
  · rw [if_pos h, bit_generate_of_generated h]
  · rw [if_neg h]

theorem foldl_clearBit_limit (L : List Nat) : ∀ e : BitSieve,
    (L.foldl BitSieve.clearBit e).limit = e.limit := by
  induction L with
  | nil => intro e; rfl
  | cons a t ih =>
    intro e
    simp only [List.foldl_cons]
    rw [ih (e.clearBit a)]
    rfl

theorem bit_markMultiples_limit (limit p : Nat) (e : BitSieve) :
    (BitSieve.markMultiples limit p e).limit = e.limit := by
  unfold BitSieve.markMultiples
  by_cases h : p * p ≤ limit
  · rw [if_pos h, foldl_clearBit_limit]
  · rw [if_neg h]

theorem bit_generateLoop_limit (limit : Nat) : ∀ (fuel p : Nat) (e : BitSieve),
    (BitSieve.generateLoop limit fuel p e).limit = e.limit := by
  intro fuel
  induction fuel with
  | zero => intro p e; rw [BitSieve.generateLoop]
  | succ fuel ih =>
    intro p e
    rw [BitSieve.generateLoop]
    by_cases h : p * p ≤ limit
    · rw [if_pos h, ih]
      by_cases hg : e.getBit p = true
      · rw [if_pos hg, bit_markMultiples_limit]
      · rw [if_neg hg]
    · rw [if_neg h]

theorem bit_generate_limit (e : BitSieve) : (e.generate).limit = e.limit := by
  unfold BitSieve.generate
  by_cases h : e.generated = true
  · rw [if_pos h]
  · rw [if_neg h]
    show (BitSieve.generateLoop e.limit (e.limit + 1) 2 e).limit = e.limit
    rw [bit_generateLoop_limit]

theorem bit_getPrimes_eq_generate (e : BitSieve) :
    e.getPrimes = (((List.range' 2 ((e.generate).limit - 1)).filter
      (fun i => (e.generate).getBit i)), e.generate) := by
  unfold BitSieve.getPrimes
  rw [bit_ifGen_eq_generate]

theorem bit_getPrimeCount_eq_generate (e : BitSieve) :
    e.getPrimeCount = (((List.range' 2 ((e.generate).limit - 1)).filter
      (fun i => (e.generate).getBit i)).length, e.generate) := by
  unfold BitSieve.getPrimeCount
  rw [bit_ifGen_eq_generate]

theorem bit_isPrime_out {e : BitSieve} {n : Nat} (h : e.limit < n) :
    e.isPrime n = Except.error SieveErr.outOfRange := by
  unfold BitSieve.isPrime
  rw [if_pos h]

theorem bit_isPrime_in {e : BitSieve} {n : Nat} (h : n ≤ e.limit) :
    e.isPrime n = Except.ok ((e.generate).getBit n, e.generate) := by
  unfold BitSieve.isPrime
  rw [if_neg (Nat.not_lt.mpr h), bit_ifGen_eq_generate]

theorem wheel_generate_generated (e : WheelSieve) : (e.generate).generated = true := by
  unfold WheelSieve.generate
  by_cases h : e.generated = true
  · rw [if_pos h]
    exact h
  · rw [if_neg h]

theorem wheel_generate_of_generated {e : WheelSieve} (h : e.generated = true) :
    e.generate = e := by
  unfold WheelSieve.generate
  rw [h]
  exact rfl

theorem wheel_generate_generate (e : WheelSieve) : e.generate.generate = e.generate :=
  wheel_generate_of_generated (wheel_generate_generated e)

theorem wheel_ifGen_eq_generate (e : WheelSieve) :
    (if e.generated then e else e.generate) = e.generate := by
  by_cases h : e.generated = true
  · rw [if_pos h, wheel_generate_of_generated h]
  · rw [if_neg h]

theorem wheel_generate_limit (e : WheelSieve) : (e.generate).limit = e.limit := by
  unfold WheelSieve.generate
  by_cases h : e.generated = true
  · rw [if_pos h]
  · rw [if_neg h]

theorem wheel_getPrimes_eq_generate (e : WheelSieve) :
    e.getPrimes = (((if 2 ≤ (e.generate).limit then [2] else [])
        ++ (if 3 ≤ (e.generate).limit then [3] else [])
        ++ (if 5 ≤ (e.generate).limit then [5] else []))
      ++ WheelSieve.wheelWalk (e.generate).limit (e.generate).sieve
          ((e.generate).limit + 1) 7, e.generate) := by
  unfold WheelSieve.getPrimes
  rw [wheel_ifGen_eq_generate]

theorem wheel_getPrimeCount_eq_generate (e : WheelSieve) :
    e.getPrimeCount = (((if 2 ≤ (e.generate).limit then 1 else 0)
        + (if 3 ≤ (e.generate).limit then 1 else 0)
        + (if 5 ≤ (e.generate).limit then 1 else 0))
      + (WheelSieve.wheelWalk (e.generate).limit (e.generate).sieve
          ((e.generate).limit + 1) 7).length, e.generate) := by
  unfold WheelSieve.getPrimeCount
  rw [wheel_ifGen_eq_generate]

theorem wheel_isPrime_out {e : WheelSieve} {n : Nat} (h : e.limit < n) :
    e.isPrime n = Except.error SieveErr.outOfRange := by
  unfold WheelSieve.isPrime
  rw [if_pos h]

theorem wheel_isPrime_in {e : WheelSieve} {n : Nat} (h : n ≤ e.limit) :
    e.isPrime n = Except.ok ((e.generate).sieve n, e.generate) := by
  unfold WheelSieve.isPrime
  rw [if_neg (Nat.not_lt.mpr h), wheel_ifGen_eq_generate]

/-!
Cells 0 and 1 in the wheel variant: the constructor clears them and no
later loop ever writes below index 2.
-/

theorem ite_setFlag_ne {c : Prop} [Decidable c] (f : Nat → Bool) (a : Nat) (b : Bool)
    (i : Nat) (h : i ≠ a) : (if c then setFlag f a b else f) i = f i := by
  by_cases hc : c
  · rw [if_pos hc, setFlag_eval, if_neg h]
  · rw [if_neg hc]

theorem clearStride_low {limit p : Nat} (s : Nat → Bool) (i : Nat) (hi : i < p) :
    WheelSieve.clearStride limit p s i = s i := by
  unfold WheelSieve.clearStride
  by_cases h : p ≤ limit
  · rw [if_pos h, foldl_setFlag_eval, if_neg]
    intro hmem
    simp only [List.mem_map, List.mem_range] at hmem
    obtain ⟨k, -, hk⟩ := hmem
    omega
  · rw [if_neg h]

theorem getNextWheelNumber_ge2 (m : Nat) : 2 ≤ WheelSieve.getNextWheelNumber m := by
  unfold WheelSieve.getNextWheelNumber
  split_ifs with h1 h2 h3 h4
  · omega
  · omega
  · omega
  · omega
  · exact le_trans (by omega) (Nat.le_add_right m _)

theorem markLoop_low (limit p : Nat) : ∀ (fuel m : Nat) (s : Nat → Bool) (i : Nat),
    i < 2 → 2 ≤ m → WheelSieve.markLoop limit p fuel m s i = s i := by
  intro fuel
  induction fuel with
  | zero =>
    intro m s i hi hm
    rw [WheelSieve.markLoop]
  | succ fuel ih =>
    intro m s i hi hm
    rw [WheelSieve.markLoop]
    by_cases h : m ≤ limit
    · rw [if_pos h]
      have hnext := getNextWheelNumber_ge2 m
      have hge : 2 ≤ (if WheelSieve.getNextWheelNumber m % p ≠ 0
          then WheelSieve.getNextWheelNumber m + p else WheelSieve.getNextWheelNumber m) := by
        split_ifs <;> omega
      rw [ih _ _ i hi hge, setFlag_eval, if_neg (by omega : ¬ i = m)]
    · rw [if_neg h]

theorem genLoop_low (limit : Nat) : ∀ (fuel p : Nat) (s : Nat → Bool) (i : Nat),
    i < 2 → 2 ≤ p → WheelSieve.genLoop limit fuel p s i = s i := by
  intro fuel
  induction fuel with
  | zero =>
    intro p s i hi hp
    rw [WheelSieve.genLoop]
  | succ fuel ih =>
    intro p s i hi hp
    rw [WheelSieve.genLoop]
    by_cases h : p * p ≤ limit
    · rw [if_pos h]
      rw [ih _ _ i hi (getNextWheelNumber_ge2 p)]
      by_cases hsp : s p = true
      · rw [if_pos hsp, markLoop_low limit p _ _ _ i hi (by nlinarith)]
      · rw [if_neg hsp]
    · rw [if_neg h]


theorem wheel_init_sieve_low (B i : Nat) (hi : i < 2) (hiB : i ≤ B) :
    (WheelSieve.init B).sieve i = false := by
  unfold WheelSieve.init
  dsimp only
  rw [ite_setFlag_ne _ _ _ i (by omega : i ≠ 5), ite_setFlag_ne _ _ _ i (by omega : i ≠ 3),
    ite_setFlag_ne _ _ _ i (by omega : i ≠ 2), clearStride_low _ i (by omega),
    clearStride_low _ i (by omega), clearStride_low _ i (by omega)]
  rcases (by omega : i = 0 ∨ i = 1) with h | h
  · subst h
    rw [ite_setFlag_ne _ _ _ 0 (by omega : (0 : Nat) ≠ 1), setFlag_eval, if_pos rfl]
  · subst h
    rw [if_pos (by omega : 1 ≤ B), setFlag_eval, if_pos rfl]

theorem wheel_generate_sieve_low {e : WheelSieve} (i : Nat) (hi : i < 2) :
    ((e.generate).sieve) i = e.sieve i := by
  unfold WheelSieve.generate
  by_cases h : e.generated = true
  · rw [if_pos h]
  · rw [if_neg h]
    show WheelSieve.genLoop e.limit (e.limit + 1) 7 e.sieve i = e.sieve i
    exact genLoop_low _ _ _ _ i hi (by omega)

theorem wheelWalk_mem_ge (limit : Nat) (s : Nat → Bool) : ∀ (fuel i x : Nat), 2 ≤ i →
    x ∈ WheelSieve.wheelWalk limit s fuel i → 2 ≤ x := by
  intro fuel
  induction fuel with
  | zero =>
    intro i x hi hx
    rw [WheelSieve.wheelWalk] at hx
    exact absurd hx (List.not_mem_nil x)
  | succ fuel ih =>
    intro i x hi hx
    rw [WheelSieve.wheelWalk] at hx
    by_cases h : i ≤ limit
    · rw [if_pos h, List.mem_append] at hx
      rcases hx with hx | hx
      · by_cases hs : s i = true
        · rw [if_pos hs, List.mem_singleton] at hx
          omega
        · rw [if_neg hs] at hx
          exact absurd hx (List.not_mem_nil x)
      · exact ih _ x (getNextWheelNumber_ge2 i) hx
    · rw [if_neg h] at hx
      exact absurd hx (List.not_mem_nil x)

theorem wheel_getPrimes_mem_ge (e : WheelSieve) (x : Nat) :
    x ∈ (e.getPrimes).1 → 2 ≤ x := by
  rw [wheel_getPrimes_eq_generate]
  intro hx
  rw [List.mem_append, List.mem_append, List.mem_append] at hx
  rcases hx with ((hx | hx) | hx) | hx
  · by_cases h : 2 ≤ (e.generate).limit
    · rw [if_pos h, List.mem_singleton] at hx
      omega
    · rw [if_neg h] at hx
      exact absurd hx (List.not_mem_nil x)
  · by_cases h : 3 ≤ (e.generate).limit
    · rw [if_pos h, List.mem_singleton] at hx
      omega
    · rw [if_neg h] at hx
      exact absurd hx (List.not_mem_nil x)
  · by_cases h : 5 ≤ (e.generate).limit
    · rw [if_pos h, List.mem_singleton] at hx
      omega
    · rw [if_neg h] at hx
      exact absurd hx (List.not_mem_nil x)
  · exact wheelWalk_mem_ge _ _ _ 7 x (by omega) hx

theorem basic_getPrimes_mem_ge (e : BasicSieve) (x : Nat) :
    x ∈ (e.getPrimes).1 → 2 ≤ x := by
  rw [basic_getPrimes_eq_generate]
  intro hx
  have hm := (List.mem_filter.mp hx).1
  rw [List.mem_range'_1] at hm
  omega

theorem bit_getPrimes_mem_ge (e : BitSieve) (x : Nat) :
    x ∈ (e.getPrimes).1 → 2 ≤ x := by
  rw [bit_getPrimes_eq_generate]
  intro hx
  have hm := (List.mem_filter.mp hx).1
  rw [List.mem_range'_1] at hm
  omega

theorem basic_init_sieve_low (B i : Nat) (hi : i < 2) (hiB : i ≤ B) :
    (BasicSieve.init B).sieve i = false := by
  show (if 1 ≤ B then setFlag (setFlag (fun _ => true) 0 false) 1 false
      else setFlag (fun _ => true) 0 false) i = false
  rcases (by omega : i = 0 ∨ i = 1) with h | h
  · subst h
    rw [ite_setFlag_ne _ _ _ 0 (by omega : (0 : Nat) ≠ 1), setFlag_eval, if_pos rfl]
  · subst h
    rw [if_pos (by omega : 1 ≤ B), setFlag_eval, if_pos rfl]

theorem bool_ne_true_eq_false {b : Bool} (h : b = true → False) : b = false := by
  cases b
  · rfl
  · exact absurd rfl h

theorem basic_generate_init_low (B i : Nat) (hi : i < 2) (hiB : i ≤ B) :
    ((BasicSieve.init B).generate).sieve i = false :=
  bool_ne_true_eq_false (fun h =>
    absurd ((basic_generate_sieve_eval hiB).mp h).two_le (by omega))

theorem bit_init_getBit_low (B i : Nat) (hi : i < 2) (hiB : i ≤ B) :
    (BitSieve.init B).getBit i = false := by
  rw [(bitInit_rel B).2 i hiB]
  exact basic_init_sieve_low B i hi hiB

theorem bit_generate_init_low (B i : Nat) (hi : i < 2) (hiB : i ≤ B) :
    ((BitSieve.init B).generate).getBit i = false := by
  rw [(bit_generate_rel B).2.2 i hiB]
  exact basic_generate_init_low B i hi hiB

theorem wheel_generate_init_low (B i : Nat) (hi : i < 2) (hiB : i ≤ B) :
    ((WheelSieve.init B).generate).sieve i = false := by
  rw [wheel_generate_sieve_low i hi]
  exact wheel_init_sieve_low B i hi hiB

/-!
Claim theorems.
-/

/-- Claim C1, evaluated at the failing bound B = 30: WheelSieve returns
[2, 3, 5, 7, 11, 19, 23], omitting the primes 13, 17 and 29, while
BasicSieve and BitSieve both return the ten primes up to 30; the three
variants therefore do not agree.  The cause is getNextWheelNumber, whose
skip table is indexed by the raw residue (n - 7) mod 30 although the
table is laid out as the tiled 8-entry gap cycle, so the enumeration
loop of getPrimes never visits 13, 17 or 29. -/
theorem claim_C1 :
    ((WheelSieve.init 30).generate.getPrimes).1 = [2, 3, 5, 7, 11, 19, 23]
    ∧ ((BasicSieve.init 30).generate.getPrimes).1 = [2, 3, 5, 7, 11, 13, 17, 19, 23, 29]
    ∧ ((BitSieve.init 30).generate.getPrimes).1 = [2, 3, 5, 7, 11, 13, 17, 19, 23, 29]
    ∧ ((WheelSieve.init 30).generate.getPrimes).1
        ≠ ((BasicSieve.init 30).generate.getPrimes).1 :=
  ⟨by decide, by decide, by decide, by decide⟩

/-- Claim C3, evaluated at the failing input n = 11: 11 is at least 7 and
coprime to 30, yet numToWheelIndex maps it to 4 (it adds the raw
remainder (11 - 7) mod 30 = 4 instead of the residue position 1), and
wheelIndexToNum maps 4 back to WHEEL_PRIMES[4] = 19, so the round trip
returns 19, not 11: the two maps are not mutually inverse. -/
theorem claim_C3 :
    7 ≤ 11 ∧ Nat.gcd 11 30 = 1
    ∧ WheelSieve.numToWheelIndex 11 = 4
    ∧ WheelSieve.wheelIndexToNum 4 = 19
    ∧ WheelSieve.wheelIndexToNum (WheelSieve.numToWheelIndex 11) ≠ 11 := by
  decide

/-- Claim C4, evaluated at the failing input n = 11: the smallest number
greater than 11 that is divisible by none of 2, 3, 5 is 13, but
getNextWheelNumber(11) reads WHEEL_SKIP[(11 - 7) mod 30] = WHEEL_SKIP[4]
= 4 and returns 15, skipping 13 (and 15 is even divisible by 3 and 5). -/
theorem claim_C4 :
    WheelSieve.getNextWheelNumber 11 = 15
    ∧ 11 < 13 ∧ 13 < 15
    ∧ 13 % 2 ≠ 0 ∧ 13 % 3 ≠ 0 ∧ 13 % 5 ≠ 0
    ∧ WheelSieve.getNextWheelNumber 11 ≠ 13
    ∧ 15 % 3 = 0 := by
  decide

set_option maxRecDepth 200000

/-- Claim C2: for every bound B the packed BitSieve and the dense
BasicSieve return the same getPrimes sequence, that sequence contains
exactly the prime numbers of [2, B], is strictly ascending and
duplicate-free; and the stated boundary instances hold: bound 0 and 1
give the empty sequence, bound 2 gives [2], bound 30 the ten primes up
to 30, and bound 1000 gives 168 primes with 997 present and 999 absent. -/
theorem claim_C2 :
    (∀ B : Nat,
      ((BitSieve.init B).generate.getPrimes).1 = ((BasicSieve.init B).generate.getPrimes).1
      ∧ (∀ n : Nat, n ∈ ((BasicSieve.init B).generate.getPrimes).1 ↔ Nat.Prime n ∧ n ≤ B)
      ∧ List.Pairwise (· < ·) ((BasicSieve.init B).generate.getPrimes).1
      ∧ ((BasicSieve.init B).generate.getPrimes).1.Nodup)
    ∧ ((BasicSieve.init 0).generate.getPrimes).1 = []
    ∧ ((BasicSieve.init 1).generate.getPrimes).1 = []
    ∧ ((BasicSieve.init 2).generate.getPrimes).1 = [2]
    ∧ ((BasicSieve.init 30).generate.getPrimes).1 = [2, 3, 5, 7, 11, 13, 17, 19, 23, 29]
    ∧ ((BasicSieve.init 1000).generate.getPrimes).1.length = 168
    ∧ 997 ∈ ((BasicSieve.init 1000).generate.getPrimes).1
    ∧ 999 ∉ ((BasicSieve.init 1000).generate.getPrimes).1 := by
  refine ⟨fun B => ⟨bit_getPrimes_eq B, fun n => mem_basic_getPrimes,
      basic_getPrimes_sorted B,
      List.Pairwise.imp (fun h => Nat.ne_of_lt h) (basic_getPrimes_sorted B)⟩,
    by decide, by decide, by decide, by decide, ?_, ?_, ?_⟩
  · rw [← bit_getPrimes_eq]
    decide
  · rw [← bit_getPrimes_eq]
    decide
  · rw [← bit_getPrimes_eq]
    decide

/-- Claim C6: for every variant and every engine state, isPrime(n) with
n above the stored limit fails with the out-of-range error and never
returns a value, while isPrime(n) with n within the limit never fails:
it triggers generation when the engine is not yet generated (the
returned engine state is the generated one) and returns the stored
primality flag of cell n. -/
theorem claim_C6 :
    ∀ n : Nat,
      (∀ e : BasicSieve,
        (e.limit < n → e.isPrime n = Except.error SieveErr.outOfRange)
        ∧ (n ≤ e.limit → e.isPrime n = Except.ok ((e.generate).sieve n, e.generate)))
      ∧ (∀ e : BitSieve,
        (e.limit < n → e.isPrime n = Except.error SieveErr.outOfRange)
        ∧ (n ≤ e.limit → e.isPrime n = Except.ok ((e.generate).getBit n, e.generate)))
      ∧ (∀ e : WheelSieve,
        (e.limit < n → e.isPrime n = Except.error SieveErr.outOfRange)
        ∧ (n ≤ e.limit → e.isPrime n = Except.ok ((e.generate).sieve n, e.generate))) :=
  fun _ =>
    ⟨fun _ => ⟨fun h => basic_isPrime_out h, fun h => basic_isPrime_in h⟩,
     fun _ => ⟨fun h => bit_isPrime_out h, fun h => bit_isPrime_in h⟩,
     fun _ => ⟨fun h => wheel_isPrime_out h, fun h => wheel_isPrime_in h⟩⟩

/-- Witness for claim C6 at bound 5 with n = 10 (out of range) and n = 3
(in range). -/
theorem claim_C6_witness :
    (BasicSieve.init 5).isPrime 10 = Except.error SieveErr.outOfRange
    ∧ (BasicSieve.init 5).isPrime 3
        = Except.ok (((BasicSieve.init 5).generate).sieve 3, (BasicSieve.init 5).generate)
    ∧ (BitSieve.init 5).isPrime 10 = Except.error SieveErr.outOfRange
    ∧ (BitSieve.init 5).isPrime 3
        = Except.ok (((BitSieve.init 5).generate).getBit 3, (BitSieve.init 5).generate)
    ∧ (WheelSieve.init 5).isPrime 10 = Except.error SieveErr.outOfRange
    ∧ (WheelSieve.init 5).isPrime 3
        = Except.ok (((WheelSieve.init 5).generate).sieve 3, (WheelSieve.init 5).generate) :=
  ⟨((claim_C6 10).1 (BasicSieve.init 5)).1 (by decide),
   ((claim_C6 3).1 (BasicSieve.init 5)).2 (by decide),
   ((claim_C6 10).2.1 (BitSieve.init 5)).1 (by decide),
   ((claim_C6 3).2.1 (BitSieve.init 5)).2 (by decide),
   ((claim_C6 10).2.2 (WheelSieve.init 5)).1 (by decide),
   ((claim_C6 3).2.2 (WheelSieve.init 5)).2 (by decide)⟩

/-- Claim C7: in every variant generate() moves the engine to the
generated state, is the identity on an already generated engine, and is
idempotent, so getPrimes() after two calls equals getPrimes() after
one. -/
theorem claim_C7 :
    (∀ e : BasicSieve, (e.generate).generated = true
      ∧ (e.generated = true → e.generate = e)
      ∧ e.generate.generate = e.generate
      ∧ (e.generate.generate).getPrimes = (e.generate).getPrimes)
    ∧ (∀ e : BitSieve, (e.generate).generated = true
      ∧ (e.generated = true → e.generate = e)
      ∧ e.generate.generate = e.generate
      ∧ (e.generate.generate).getPrimes = (e.generate).getPrimes)
    ∧ (∀ e : WheelSieve, (e.generate).generated = true
      ∧ (e.generated = true → e.generate = e)
      ∧ e.generate.generate = e.generate
      ∧ (e.generate.generate).getPrimes = (e.generate).getPrimes) :=
  ⟨fun e => ⟨basic_generate_generated e, fun h => basic_generate_of_generated h,
      basic_generate_generate e, by rw [basic_generate_generate]⟩,
   fun e => ⟨bit_generate_generated e, fun h => bit_generate_of_generated h,
      bit_generate_generate e, by rw [bit_generate_generate]⟩,
   fun e => ⟨wheel_generate_generated e, fun h => wheel_generate_of_generated h,
      wheel_generate_generate e, by rw [wheel_generate_generate]⟩⟩

/-- Witness for claim C7: a second generate() on the generated engines
of bound 3 is the identity. -/
theorem claim_C7_witness :
    ((BasicSieve.init 3).generate).generate = (BasicSieve.init 3).generate
    ∧ ((BitSieve.init 3).generate).generate = (BitSieve.init 3).generate
    ∧ ((WheelSieve.init 3).generate).generate = (WheelSieve.init 3).generate :=
  ⟨(claim_C7.1 ((BasicSieve.init 3).generate)).2.1 (by decide),
   (claim_C7.2.1 ((BitSieve.init 3).generate)).2.1 (by decide),
   (claim_C7.2.2 ((WheelSieve.init 3).generate)).2.1 (by decide)⟩

theorem foldl_clearBit_length (L : List Nat) : ∀ e : BitSieve,
    (L.foldl BitSieve.clearBit e).bits.length = e.bits.length := by
  induction L with
  | nil => intro e; rfl
  | cons a t ih =>
    intro e
    simp only [List.foldl_cons]
    rw [ih (e.clearBit a)]
    show (e.bits.set _ _).length = e.bits.length
    exact List.length_set e.bits _ _

theorem bit_markMultiples_length (limit p : Nat) (e : BitSieve) :
    (BitSieve.markMultiples limit p e).bits.length = e.bits.length := by
  unfold BitSieve.markMultiples
  by_cases h : p * p ≤ limit
  · rw [if_pos h, foldl_clearBit_length]
  · rw [if_neg h]

theorem bit_generateLoop_length (limit : Nat) : ∀ (fuel p : Nat) (e : BitSieve),
    (BitSieve.generateLoop limit fuel p e).bits.length = e.bits.length := by
  intro fuel
  induction fuel with
  | zero => intro p e; rw [BitSieve.generateLoop]
  | succ fuel ih =>
    intro p e
    rw [BitSieve.generateLoop]
    by_cases h : p * p ≤ limit
    · rw [if_pos h, ih]
      by_cases hg : e.getBit p = true
      · rw [if_pos hg, bit_markMultiples_length]
      · rw [if_neg hg]
    · rw [if_neg h]

/-- Claim C8, corrected by the counterexample: the packed BitSieve
memory figure is indeed the packed word count ceil((limit+1)/64) times
8 bytes, before and after generation; but WheelSieve reports
sieve.size() * sizeof(bool) = (limit + 1) * 1 bytes, one byte of
storage per candidate in [0, limit], not a compressed word-based
footprint. -/
theorem claim_C8 :
    ∀ limit : Nat,
      (BitSieve.init limit).getMemoryUsage = ((limit + 1 + 63) / 64) * 8
      ∧ ((BitSieve.init limit).generate).getMemoryUsage = ((limit + 1 + 63) / 64) * 8
      ∧ (WheelSieve.init limit).getMemoryUsage = limit + 1
      ∧ ((WheelSieve.init limit).generate).getMemoryUsage = limit + 1 := by
  intro limit
  obtain ⟨hlen, -⟩ := bitInit_rel limit
  refine ⟨?_, ?_, ?_, ?_⟩
  · show (BitSieve.init limit).bits.length * 8 = _
    rw [hlen]
  · rw [bit_generate_init]
    show (BitSieve.generateLoop limit (limit + 1) 2 (BitSieve.init limit)).bits.length * 8 = _
    rw [bit_generateLoop_length, hlen]
  · show (limit + 1) * 1 = limit + 1
    omega
  · show (((WheelSieve.init limit).generate).limit + 1) * 1 = limit + 1
    rw [wheel_generate_limit]
    show (limit + 1) * 1 = limit + 1
    omega

/-- Counterexample to claim C8 as stated: at limit 1000 the wheel
variant reports 1001 bytes, exactly one byte per candidate in
[0, 1000], and not the packed figure 16 words times 8 bytes = 128 that
the word-based formula gives (and which BitSieve does report). -/
theorem claim_C8_counterexample :
    (WheelSieve.init 1000).getMemoryUsage = 1001
    ∧ (WheelSieve.init 1000).getMemoryUsage = 1000 + 1
    ∧ (BitSieve.init 1000).getMemoryUsage = ((1000 + 1 + 63) / 64) * 8
    ∧ ((1000 + 1 + 63) / 64) * 8 = 128
    ∧ (WheelSieve.init 1000).getMemoryUsage ≠ ((1000 + 1 + 63) / 64) * 8 := by
  decide

/-- Claim C9, corrected by the counterexample: on an engine already in
the generated state, getPrimes() and getPrimeCount() return the engine
unchanged (getMemoryUsage takes the engine by value and returns only a
number, so it can never mutate); and on any engine, repeating
getPrimes() or getPrimeCount() returns identical results, the only
mutation ever performed being the generation step triggered by the
first call on a non-generated engine. -/
theorem claim_C9 :
    (∀ e : BasicSieve, e.generated = true →
      (e.getPrimes).2 = e ∧ (e.getPrimeCount).2 = e)
    ∧ (∀ e : BitSieve, e.generated = true →
      (e.getPrimes).2 = e ∧ (e.getPrimeCount).2 = e)
    ∧ (∀ e : WheelSieve, e.generated = true →
      (e.getPrimes).2 = e ∧ (e.getPrimeCount).2 = e)
    ∧ (∀ e : BasicSieve, ((e.getPrimes).2).getPrimes = e.getPrimes
      ∧ ((e.getPrimeCount).2).getPrimeCount = e.getPrimeCount)
    ∧ (∀ e : BitSieve, ((e.getPrimes).2).getPrimes = e.getPrimes
      ∧ ((e.getPrimeCount).2).getPrimeCount = e.getPrimeCount)
    ∧ (∀ e : WheelSieve, ((e.getPrimes).2).getPrimes = e.getPrimes
      ∧ ((e.getPrimeCount).2).getPrimeCount = e.getPrimeCount) := by
  refine ⟨?_, ?_, ?_, ?_, ?_, ?_⟩
  · intro e h
    rw [basic_getPrimes_eq_generate, basic_getPrimeCount_eq_generate,
      basic_generate_of_generated h]
    exact ⟨rfl, rfl⟩
  · intro e h
    rw [bit_getPrimes_eq_generate, bit_getPrimeCount_eq_generate,
      bit_generate_of_generated h]
    exact ⟨rfl, rfl⟩
  · intro e h
    rw [wheel_getPrimes_eq_generate, wheel_getPrimeCount_eq_generate,
      wheel_generate_of_generated h]
    exact ⟨rfl, rfl⟩
  · intro e
    constructor
    · have h2 : (e.getPrimes).2 = e.generate := by rw [basic_getPrimes_eq_generate]
      rw [h2, basic_getPrimes_eq_generate e.generate, basic_getPrimes_eq_generate e,
        basic_generate_generate]
    · have h2 : (e.getPrimeCount).2 = e.generate := by rw [basic_getPrimeCount_eq_generate]
      rw [h2, basic_getPrimeCount_eq_generate e.generate, basic_getPrimeCount_eq_generate e,
        basic_generate_generate]
  · intro e
    constructor
    · have h2 : (e.getPrimes).2 = e.generate := by rw [bit_getPrimes_eq_generate]
      rw [h2, bit_getPrimes_eq_generate e.generate, bit_getPrimes_eq_generate e,
        bit_generate_generate]
    · have h2 : (e.getPrimeCount).2 = e.generate := by rw [bit_getPrimeCount_eq_generate]
      rw [h2, bit_getPrimeCount_eq_generate e.generate, bit_getPrimeCount_eq_generate e,
        bit_generate_generate]
  · intro e
    constructor
    · have h2 : (e.getPrimes).2 = e.generate := by rw [wheel_getPrimes_eq_generate]
      rw [h2, wheel_getPrimes_eq_generate e.generate, wheel_getPrimes_eq_generate e,
        wheel_generate_generate]
    · have h2 : (e.getPrimeCount).2 = e.generate := by rw [wheel_getPrimeCount_eq_generate]
      rw [h2, wheel_getPrimeCount_eq_generate e.generate, wheel_getPrimeCount_eq_generate e,
        wheel_generate_generate]

/-- Counterexample to claim C9 as stated: on a freshly constructed
BasicSieve of bound 4 (NotGenerated state), a single getPrimes() call
flips the generated flag and clears storage cell 4, so the read-only
accessors do mutate engine state when invoked before generate(). -/
theorem claim_C9_counterexample :
    (BasicSieve.init 4).generated = false
    ∧ (((BasicSieve.init 4).getPrimes).2).generated = true
    ∧ (BasicSieve.init 4).sieve 4 = true
    ∧ (((BasicSieve.init 4).getPrimes).2).sieve 4 = false := by
  decide

/-- Witness for claim C9 at generated engines of bound 2. -/
theorem claim_C9_witness :
    (((BasicSieve.init 2).generate).getPrimes).2 = (BasicSieve.init 2).generate
    ∧ (((BitSieve.init 2).generate).getPrimes).2 = (BitSieve.init 2).generate
    ∧ (((WheelSieve.init 2).generate).getPrimes).2 = (WheelSieve.init 2).generate :=
  ⟨(claim_C9.1 _ (by decide)).1,
   (claim_C9.2.1 _ (by decide)).1,
   (claim_C9.2.2.1 _ (by decide)).1⟩

/-- Claim C10: in every variant with bound at least 1, storage cells 0
and 1 are non-prime from construction on, generation preserves this,
isPrime(0) and isPrime(1) return false (also when queried before
generate(), in which case they trigger generation), and getPrimes()
never contains 0 or 1, whether called before or after generate(). -/
theorem claim_C10 :
    ∀ B : Nat, 1 ≤ B →
      ((BasicSieve.init B).sieve 0 = false
        ∧ (BasicSieve.init B).sieve 1 = false
        ∧ ((BasicSieve.init B).generate).sieve 0 = false
        ∧ ((BasicSieve.init B).generate).sieve 1 = false
        ∧ (BasicSieve.init B).isPrime 0 = Except.ok (false, (BasicSieve.init B).generate)
        ∧ (BasicSieve.init B).isPrime 1 = Except.ok (false, (BasicSieve.init B).generate)
        ∧ 0 ∉ ((BasicSieve.init B).getPrimes).1
        ∧ 1 ∉ ((BasicSieve.init B).getPrimes).1
        ∧ 0 ∉ (((BasicSieve.init B).generate).getPrimes).1
        ∧ 1 ∉ (((BasicSieve.init B).generate).getPrimes).1)
      ∧ ((BitSieve.init B).getBit 0 = false
        ∧ (BitSieve.init B).getBit 1 = false
        ∧ ((BitSieve.init B).generate).getBit 0 = false
        ∧ ((BitSieve.init B).generate).getBit 1 = false
        ∧ (BitSieve.init B).isPrime 0 = Except.ok (false, (BitSieve.init B).generate)
        ∧ (BitSieve.init B).isPrime 1 = Except.ok (false, (BitSieve.init B).generate)
        ∧ 0 ∉ ((BitSieve.init B).getPrimes).1
        ∧ 1 ∉ ((BitSieve.init B).getPrimes).1
        ∧ 0 ∉ (((BitSieve.init B).generate).getPrimes).1
        ∧ 1 ∉ (((BitSieve.init B).generate).getPrimes).1)
      ∧ ((WheelSieve.init B).sieve 0 = false
        ∧ (WheelSieve.init B).sieve 1 = false
        ∧ ((WheelSieve.init B).generate).sieve 0 = false
        ∧ ((WheelSieve.init B).generate).sieve 1 = false
        ∧ (WheelSieve.init B).isPrime 0 = Except.ok (false, (WheelSieve.init B).generate)
        ∧ (WheelSieve.init B).isPrime 1 = Except.ok (false, (WheelSieve.init B).generate)
        ∧ 0 ∉ ((WheelSieve.init B).getPrimes).1
        ∧ 1 ∉ ((WheelSieve.init B).getPrimes).1
        ∧ 0 ∉ (((WheelSieve.init B).generate).getPrimes).1
        ∧ 1 ∉ (((WheelSieve.init B).generate).getPrimes).1) := by
  intro B hB
  refine ⟨⟨basic_init_sieve_low B 0 (by omega) (by omega),
      basic_init_sieve_low B 1 (by omega) hB,
      basic_generate_init_low B 0 (by omega) (by omega),
      basic_generate_init_low B 1 (by omega) hB, ?_, ?_, ?_, ?_, ?_, ?_⟩,
    ⟨bit_init_getBit_low B 0 (by omega) (by omega),
      bit_init_getBit_low B 1 (by omega) hB,
      bit_generate_init_low B 0 (by omega) (by omega),
      bit_generate_init_low B 1 (by omega) hB, ?_, ?_, ?_, ?_, ?_, ?_⟩,
    ⟨wheel_init_sieve_low B 0 (by omega) (by omega),
      wheel_init_sieve_low B 1 (by omega) hB,
      wheel_generate_init_low B 0 (by omega) (by omega),
      wheel_generate_init_low B 1 (by omega) hB, ?_, ?_, ?_, ?_, ?_, ?_⟩⟩
  · rw [basic_isPrime_in (show (0 : Nat) ≤ (BasicSieve.init B).limit from Nat.zero_le _),
      basic_generate_init_low B 0 (by omega) (by omega)]
  · rw [basic_isPrime_in (show (1 : Nat) ≤ (BasicSieve.init B).limit from hB),
      basic_generate_init_low B 1 (by omega) hB]
  · exact fun h => absurd (basic_getPrimes_mem_ge _ 0 h) (by omega)
  · exact fun h => absurd (basic_getPrimes_mem_ge _ 1 h) (by omega)
  · exact fun h => absurd (basic_getPrimes_mem_ge _ 0 h) (by omega)
  · exact fun h => absurd (basic_getPrimes_mem_ge _ 1 h) (by omega)
  · rw [bit_isPrime_in (show (0 : Nat) ≤ (BitSieve.init B).limit from Nat.zero_le _),
      bit_generate_init_low B 0 (by omega) (by omega)]
  · rw [bit_isPrime_in (show (1 : Nat) ≤ (BitSieve.init B).limit by rw [bitInit_limit]; omega),
      bit_generate_init_low B 1 (by omega) hB]
  · exact fun h => absurd (bit_getPrimes_mem_ge _ 0 h) (by omega)
  · exact fun h => absurd (bit_getPrimes_mem_ge _ 1 h) (by omega)
  · exact fun h => absurd (bit_getPrimes_mem_ge _ 0 h) (by omega)
  · exact fun h => absurd (bit_getPrimes_mem_ge _ 1 h) (by omega)
  · rw [wheel_isPrime_in (show (0 : Nat) ≤ (WheelSieve.init B).limit from Nat.zero_le _),
      wheel_generate_init_low B 0 (by omega) (by omega)]
  · rw [wheel_isPrime_in (show (1 : Nat) ≤ (WheelSieve.init B).limit from hB),
      wheel_generate_init_low B 1 (by omega) hB]
  · exact fun h => absurd (wheel_getPrimes_mem_ge _ 0 h) (by omega)
  · exact fun h => absurd (wheel_getPrimes_mem_ge _ 1 h) (by omega)
  · exact fun h => absurd (wheel_getPrimes_mem_ge _ 0 h) (by omega)
  · exact fun h => absurd (wheel_getPrimes_mem_ge _ 1 h) (by omega)

/-- Witness for claim C10 at bound 5. -/
theorem claim_C10_witness :
    (BasicSieve.init 5).sieve 0 = false
    ∧ (BitSieve.init 5).getBit 0 = false
    ∧ (WheelSieve.init 5).sieve 0 = false :=
  ⟨(claim_C10 5 (by decide)).1.1,
   (claim_C10 5 (by decide)).2.1.1,
   (claim_C10 5 (by decide)).2.2.1⟩
